import Mathlib

/-!
Verification of `pkg/common` and the `big_rewrite` handler

A shallow embedding of the Go sources

* `pkg/common/files.go`  (`CreateBackup`, `CountLines`),
* `pkg/common/tokens.go` (`EstimateTokens`, `CalculateCost`),
* `cmd/big-rewrite/main.go` (the handler registered for `big_rewrite`),

together with the properties the specification states about them.

Go values are embedded as follows.

* A Go `string` is an immutable sequence of bytes: `GoString = List (Fin 256)`.
  `len` is the number of bytes, `+` is list append, `==` is equality of the
  byte sequences.  A string literal of the source denotes its UTF-8 encoding
  (`GoString.lit`).
* `for _, c := range s` decodes UTF-8 one code point at a time; an invalid
  or truncated sequence yields `U+FFFD` and advances a single byte
  (`decodeRune`, `forRange`).
* A Go `int` is embedded as `Int`.  The only arithmetic performed on `int`
  values is `len(text) / 4` and the increments of a counter bounded by
  `len(content) + 1`; both stay below `2^63` for every string that fits in
  memory, so no wrap-around is reachable.
-/

namespace MCP

/-! ## Go strings -/

/-- A Go string: a sequence of bytes. -/
abbrev GoString := List (Fin 256)

/-- A Unicode code point as produced by a `range` loop (Go `rune`). -/
abbrev Rune := Nat

/-- The byte `n mod 256`. -/
def byte (n : Nat) : Fin 256 := ⟨n % 256, Nat.mod_lt n (by decide)⟩

/-- UTF-8 encoding of one code point (the encoding Go uses for the characters
of a string literal). -/
def encodeRune (c : Nat) : GoString :=
  if c < 0x80 then [byte c]
  else if c < 0x800 then [byte (0xC0 ||| (c >>> 6)), byte (0x80 ||| (c &&& 0x3F))]
  else if c < 0x10000 then
    [byte (0xE0 ||| (c >>> 12)), byte (0x80 ||| ((c >>> 6) &&& 0x3F)), byte (0x80 ||| (c &&& 0x3F))]
  else
    [byte (0xF0 ||| (c >>> 18)), byte (0x80 ||| ((c >>> 12) &&& 0x3F)),
     byte (0x80 ||| ((c >>> 6) &&& 0x3F)), byte (0x80 ||| (c &&& 0x3F))]

/-- The Go string denoted by a string literal: the UTF-8 bytes of its characters. -/
def GoString.lit (s : String) : GoString :=
  s.data.flatMap (fun c => encodeRune c.toNat)

/-- The replacement code point `U+FFFD` (`utf8.RuneError`). -/
def runeError : Rune := 0xFFFD

/-- Continuation byte test: `0x80 <= b && b <= 0xBF`. -/
def isCont (b : Fin 256) : Bool := decide (0x80 ≤ b.val) && decide (b.val ≤ 0xBF)

/-- One step of a `range` loop over a string: the code point at the front of
`s` and the number of bytes it occupies.  Bytes below `0x80` are themselves;
otherwise a well-formed two, three or four byte sequence is decoded (shortest
form only, no surrogates, at most `U+10FFFF`), and anything else gives
`(U+FFFD, 1)`. -/
def decodeRune (s : GoString) : Rune × Nat :=
  match s with
  | [] => (runeError, 1)
  | b0 :: rest =>
    if b0.val < 0x80 then (b0.val, 1)
    else if 0xC0 ≤ b0.val ∧ b0.val < 0xE0 then
      match rest with
      | b1 :: _ =>
        if isCont b1 then
          let r := ((b0.val &&& 0x1F) <<< 6) ||| (b1.val &&& 0x3F)
          if 0x7F < r then (r, 2) else (runeError, 1)
        else (runeError, 1)
      | _ => (runeError, 1)
    else if 0xE0 ≤ b0.val ∧ b0.val < 0xF0 then
      match rest with
      | b1 :: b2 :: _ =>
        if isCont b1 && isCont b2 then
          let r := ((b0.val &&& 0x0F) <<< 12) ||| ((b1.val &&& 0x3F) <<< 6) ||| (b2.val &&& 0x3F)
          if 0x7FF < r ∧ ¬ (0xD800 ≤ r ∧ r ≤ 0xDFFF) then (r, 3) else (runeError, 1)
        else (runeError, 1)
      | _ => (runeError, 1)
    else if 0xF0 ≤ b0.val ∧ b0.val < 0xF8 then
      match rest with
      | b1 :: b2 :: b3 :: _ =>
        if isCont b1 && isCont b2 && isCont b3 then
          let r := ((b0.val &&& 0x07) <<< 18) ||| ((b1.val &&& 0x3F) <<< 12)
                    ||| ((b2.val &&& 0x3F) <<< 6) ||| (b3.val &&& 0x3F)
          if 0xFFFF < r ∧ r ≤ 0x10FFFF then (r, 4) else (runeError, 1)
        else (runeError, 1)
      | _ => (runeError, 1)
    else (runeError, 1)

/-- The loop `for _, c := range s { st = body(st, c) }`.  Each iteration
decodes one code point and advances by its width; `fuel` bounds the number of
iterations (a string of `n` bytes needs at most `n`). -/
def forRange {σ : Type} (body : σ → Rune → σ) : Nat → GoString → σ → σ
  | 0, _, st => st
  | fuel + 1, s, st =>
    match s with
    | [] => st
    | _ :: _ =>
      let d := decodeRune s
      forRange body fuel (s.drop d.2) (body st d.1)

/-- The code points of a string, in the order a `range` loop visits them. -/
def runes (s : GoString) : List Rune :=
  forRange (fun acc c => acc ++ [c]) s.length s []

/-! ## `pkg/common/files.go`: `CountLines` -/

/-- The function `CountLines` of `files.go`:
```go
if content == "" { return 0 }
lines := 1
for _, c := range content { if c == '\n' { lines++ } }
return lines
``` -/
def CountLines (content : GoString) : Int :=
  if content = [] then 0
  else forRange (fun lines c => if c = 0x0A then lines + 1 else lines) content.length content 1

/-! ## `pkg/common/tokens.go`: `EstimateTokens` -/

/-- The function `EstimateTokens` of `tokens.go`: `return len(text) / 4` (`len` counts
bytes; Go integer division truncates toward zero). -/
def EstimateTokens (text : GoString) : Int :=
  Int.tdiv (text.length : Int) 4

/-! ## `pkg/common/files.go`: `CreateBackup`

The operating system resolves a path before it touches a file: different
spellings (`notes.txt`, `./notes.txt`), symbolic links and hard links name the
same file.  The file system therefore consists of a resolution of paths to
file names in canonical form and of a map from those names to files (content
and permission bits), together with the umask of the process.  The ways in
which the operating system can refuse an operation are part of the state as
well, so that every outcome of `os.ReadFile` and `os.WriteFile` is covered: a
missing file, a refused or failing read, a refused open for writing, and a
write that fails after some bytes. -/

/-- A Go `error` value returned by the `os` package. -/
inductive GoError where
  | notExist
  | permission
  | io
  deriving DecidableEq, Repr

/-- A regular file: its bytes and its permission bits. -/
structure File where
  content : GoString
  mode : Nat
  deriving DecidableEq, Repr

/-- The file system.  `resolve` gives the canonical name of the file a path
denotes (after cleaning the spelling and following links): two paths name the
same file exactly when they resolve alike.  `files` holds the existing files
by canonical name, `umask` is the file mode creation mask of the process, and
for each path the three fault fields give the error (if any) with which the
environment answers a read, an open for writing, and a write (the latter
together with the number of bytes that reach the file before the failure). -/
structure FileSystem where
  resolve : GoString → GoString
  files : GoString → Option File
  umask : Nat
  readFault : GoString → Option GoError
  openFault : GoString → Option GoError
  writeFault : GoString → Option (GoError × Nat)

/-- The file found at the path `name`, if any. -/
def FileSystem.lookup (fs : FileSystem) (name : GoString) : Option File :=
  fs.files (fs.resolve name)

/-- Replace (or create) the file that the path `name` denotes. -/
def FileSystem.store (fs : FileSystem) (name : GoString) (f : File) : FileSystem :=
  { fs with files := fun k => if k = fs.resolve name then some f else fs.files k }

/-- The Go operator `a &^ b` (bit clear): the bits of `a` that are not in `b`. -/
def andNot (a b : Nat) : Nat := a ^^^ (a &&& b)

/-- The call `os.ReadFile(name)`: the whole content of the file, or an error when the
file is missing or cannot be read. -/
def ReadFile (fs : FileSystem) (name : GoString) : Except GoError GoString :=
  match fs.lookup name with
  | none => .error .notExist
  | some f =>
    match fs.readFault name with
    | some e => .error e
    | none => .ok f.content

/-- The call `os.WriteFile(name, data, perm)`: open with `O_WRONLY|O_CREATE|O_TRUNC`
(creating the file with mode `perm &^ umask` when it does not exist, truncating
it and keeping its mode when it does), write `data`, close.  A failing open
leaves the file system as it was; a failing write leaves the bytes written so
far. -/
def WriteFile (fs : FileSystem) (name : GoString) (data : GoString) (perm : Nat) :
    Option GoError × FileSystem :=
  match fs.openFault name with
  | some e => (some e, fs)
  | none =>
    let mode := match fs.lookup name with
      | some f => f.mode
      | none => andNot perm fs.umask
    match fs.writeFault name with
    | some (e, n) => (some e, fs.store name { content := data.take n, mode := mode })
    | none => (none, fs.store name { content := data, mode := mode })

/-- The function `CreateBackup` of `files.go`:
```go
content, err := os.ReadFile(filePath)
if err != nil { return err }
backupPath := filePath + ".backup"
return os.WriteFile(backupPath, content, 0644)
```
The result is the returned `error` (`none` for `nil`) and the file system
after the call. -/
def CreateBackup (fs : FileSystem) (filePath : GoString) : Option GoError × FileSystem :=
  match ReadFile fs filePath with
  | .error err => (some err, fs)
  | .ok content =>
    let backupPath := filePath ++ GoString.lit ".backup"
    WriteFile fs backupPath content 0o644

/-! ## `cmd/big-rewrite/main.go`: the `big_rewrite` handler -/

/-- The type `BigRewriteInput`: the single input field `file_path`. -/
structure BigRewriteInput where
  FilePath : GoString
  deriving DecidableEq, Repr

/-- The type `mcp.TextContent`, with the field the handler sets. -/
structure TextContent where
  Text : GoString
  deriving DecidableEq, Repr

/-- The type `mcp.Content`: the handler only builds text items. -/
inductive Content where
  | text (t : TextContent)
  deriving DecidableEq, Repr

/-- The type `mcp.CallToolResult`, with the field the handler sets. -/
structure CallToolResult where
  Content : List Content
  deriving DecidableEq, Repr

/-- The function registered for the tool `big_rewrite`:
```go
func(ctx context.Context, req *mcp.CallToolRequest, input BigRewriteInput)
    (*mcp.CallToolResult, any, error) {
  return &mcp.CallToolResult{
    Content: []mcp.Content{&mcp.TextContent{Text: "Not implemented yet"}},
  }, nil, nil
}
```
The context and the request are values of the SDK and are taken as they come.
The file system is threaded through the call so that its effect on files can
be stated; the three results are the result pointer, the structured output
(`any`) and the `error`, with `none` for `nil`. -/
def bigRewriteHandler {Ctx Req : Type} (_ctx : Ctx) (_req : Req) (_input : BigRewriteInput)
    (fs : FileSystem) : (Option CallToolResult × Option Unit × Option GoError) × FileSystem :=
  ((some { Content := [Content.text { Text := GoString.lit "Not implemented yet" }] }, none, none),
   fs)

/-! ## `pkg/common/tokens.go`: `CalculateCost`

A finite `float64` value is a rational number.  Every `float64` operation
of the source (`float64(n)`, `*`, `/`, `+`) computes the exact rational result
and rounds it to the nearest `float64`, ties to even (IEEE 754 binary64, the
rounding Go uses).  `CalculateCost` is embedded with the rounding operator as
a parameter: with `roundFloat64` it is the Go function, with `id` it is the
same formula read in exact arithmetic.  The constants `15.0`, `1.25`,
`1_000_000`, ... are `float64` values exactly.  Infinities, NaN and negative
zero are not represented: they cannot arise from integer token counts, whose
products and quotients stay far inside the exponent range. -/

/-- Round to the nearest integer, ties to the even one. -/
def roundHalfEven (q : ℚ) : ℤ :=
  let f := ⌊q⌋
  if q - f < 1 / 2 then f
  else if 1 / 2 < q - f then f + 1
  else if f % 2 = 0 then f else f + 1

/-- Round a rational to the nearest number with a 53-bit significand, ties to
even: the value is scaled by the unit in the last place of its binade
(`2 ^ (⌊log₂ |x|⌋ - 52)`), rounded to an integer and scaled back.  This is
binary64 rounding for every `x` with `2^(-1022) ≤ |x| < 2^1024` and for
`x = 0`; all values that `CalculateCost` produces from 64-bit token counts are
zero or have a magnitude between `2^(-73)` and `2^71`. -/
def roundFloat64 (x : ℚ) : ℚ :=
  if x = 0 then 0
  else
    let ulp : ℚ := 2 ^ (Int.log 2 |x| - 52)
    roundHalfEven (x / ulp) * ulp

/-- The function `CalculateCost` of `tokens.go`, with `rnd` the rounding applied after each
floating-point operation:
```go
switch provider {
case "claude-opus":
    inputCost = float64(inputTokens) * 15.0 / 1_000_000
    outputCost = float64(outputTokens) * 75.0 / 1_000_000
case "claude-sonnet": ... 3.0 ... 15.0
case "gemini":        ... 1.25 ... 5.0
case "gpt-4":         ... 10.0 ... 30.0
default:
    return 0
}
return inputCost + outputCost
``` -/
def CalculateCost (rnd : ℚ → ℚ) (inputTokens outputTokens : Int) (provider : GoString) : ℚ :=
  if provider = GoString.lit "claude-opus" then
    let inputCost := rnd (rnd (rnd (inputTokens : ℚ) * 15) / 1000000)
    let outputCost := rnd (rnd (rnd (outputTokens : ℚ) * 75) / 1000000)
    rnd (inputCost + outputCost)
  else if provider = GoString.lit "claude-sonnet" then
    let inputCost := rnd (rnd (rnd (inputTokens : ℚ) * 3) / 1000000)
    let outputCost := rnd (rnd (rnd (outputTokens : ℚ) * 15) / 1000000)
    rnd (inputCost + outputCost)
  else if provider = GoString.lit "gemini" then
    let inputCost := rnd (rnd (rnd (inputTokens : ℚ) * (5 / 4)) / 1000000)
    let outputCost := rnd (rnd (rnd (outputTokens : ℚ) * 5) / 1000000)
    rnd (inputCost + outputCost)
  else if provider = GoString.lit "gpt-4" then
    let inputCost := rnd (rnd (rnd (inputTokens : ℚ) * 10) / 1000000)
    let outputCost := rnd (rnd (rnd (outputTokens : ℚ) * 30) / 1000000)
    rnd (inputCost + outputCost)
  else 0

/-- The rate table of the specification: provider identifier, input rate and
output rate per 1,000,000 tokens. -/
def specRates : List (String × ℚ × ℚ) :=
  [("claude-opus", 15, 75), ("claude-sonnet", 3, 15), ("gemini", 5 / 4, 5), ("gpt-4", 10, 30)]

/-- Path cleaning of the sample file systems: a leading `./` is dropped, so
that `./notes.txt` and `notes.txt` name the same file. -/
def dropDotSlash (p : GoString) : GoString :=
  match p with
  | a :: b :: rest => if a = 46 ∧ b = 47 then rest else p
  | _ => p

/-- A small file system used to exercise `CreateBackup`: one file `notes.txt`
with mode 0600 and content "hello\n", the usual umask 022, and no failing
operation. -/
def sampleFS : FileSystem where
  resolve := dropDotSlash
  files := fun p =>
    if p = GoString.lit "notes.txt" then some { content := GoString.lit "hello\n", mode := 0o600 }
    else none
  umask := 0o022
  readFault := fun _ => none
  openFault := fun _ => none
  writeFault := fun _ => none

/-- The sample file system under the umask 077. -/
def strictFS : FileSystem := { sampleFS with umask := 0o077 }

/-! ## Decoding lemmas -/

theorem byte_ne_newline_of_ge {b : Fin 256} (h : 0x80 ≤ b.val) : ¬ (b = 10) := by
  intro hb
  rw [hb] at h
  exact absurd h (by decide)

theorem isCont_ge {b : Fin 256} (h : isCont b = true) : 0x80 ≤ b.val := by
  simp [isCont] at h
  exact h.1

/-- Outside the one-byte range a decoding step either fails with `(U+FFFD, 1)`
or consumes between two and four bytes, all of them `≥ 0x80`, and yields a
code point above `0x7F`. -/
theorem decodeRune_multibyte (b0 : Fin 256) (rest : GoString) (h0 : ¬ b0.val < 0x80) :
    decodeRune (b0 :: rest) = (runeError, 1) ∨
    ∃ r w : Nat, decodeRune (b0 :: rest) = (r, w) ∧ 0x7F < r ∧ 2 ≤ w ∧ w ≤ 4 ∧
      w ≤ (b0 :: rest).length ∧ ∀ b ∈ (b0 :: rest).take w, 0x80 ≤ b.val := by
  have hb0 : 0x80 ≤ b0.val := by omega
  simp only [decodeRune, h0, if_false]
  split
  · split
    · split
      · rename_i c1
        split
        · rename_i hr
          right
          refine ⟨_, _, rfl, hr, by norm_num, by norm_num, by simp, ?_⟩
          simp [hb0, isCont_ge c1]
        · left; rfl
      · left; rfl
    · left; rfl
  · split
    · split
      · split
        · rename_i c
          split
          · rename_i hr
            right
            simp only [Bool.and_eq_true] at c
            refine ⟨_, _, rfl, ?_, by norm_num, by norm_num, by simp, ?_⟩
            · exact lt_trans (by norm_num) hr.1
            · simp [hb0, isCont_ge c.1, isCont_ge c.2]
          · left; rfl
        · left; rfl
      · left; rfl
    · split
      · split
        · split
          · rename_i c
            split
            · rename_i hr
              right
              simp only [Bool.and_eq_true] at c
              refine ⟨_, _, rfl, ?_, by norm_num, by norm_num, by simp, ?_⟩
              · exact lt_trans (by norm_num) hr.1
              · simp [hb0, isCont_ge c.1.1, isCont_ge c.1.2, isCont_ge c.2]
            · left; rfl
          · left; rfl
        · left; rfl
      · left; rfl

/-- A decoding step consumes at least one byte, and the bytes it consumes
contain a line feed exactly when the decoded code point is a line feed. -/
theorem decodeRune_newline (b0 : Fin 256) (rest : GoString) :
    1 ≤ (decodeRune (b0 :: rest)).2 ∧
    ((b0 :: rest).take (decodeRune (b0 :: rest)).2).count 10 =
      if (decodeRune (b0 :: rest)).1 = 0x0A then 1 else 0 := by
  have herr : ¬ (runeError = 0x0A) := by decide
  by_cases h0 : b0.val < 0x80
  · have hd : decodeRune (b0 :: rest) = (b0.val, 1) := by simp [decodeRune, h0]
    rw [hd]
    by_cases hb : b0 = 10
    · subst hb; simp; rfl
    · have : ¬ (b0.val = 10) := fun h => hb (Fin.ext h)
      simp [hb, this, List.count_cons]
  · have hb0 : ¬ (b0 = 10) := byte_ne_newline_of_ge (by omega)
    rcases decodeRune_multibyte b0 rest h0 with hd | ⟨r, w, hd, hr, hw, _, _, hall⟩
    · rw [hd]
      simp [herr, hb0, List.count_cons]
    · rw [hd]
      have hc : ((b0 :: rest).take w).count 10 = 0 :=
        List.count_eq_zero.mpr (fun hmem => byte_ne_newline_of_ge (hall _ hmem) rfl)
      have hr10 : ¬ (r = 10) := by omega
      have hw1 : 1 ≤ w := by omega
      simp only [hc, hr10, hw1, if_false, and_self]

/-- With enough fuel the counting loop adds the number of line-feed bytes. -/
theorem forRange_count (fuel : Nat) : ∀ (s : GoString) (n : Int), s.length ≤ fuel →
    forRange (fun lines c => if c = 0x0A then lines + 1 else lines) fuel s n
      = n + (s.count 10 : Nat) := by
  induction fuel with
  | zero =>
    intro s n h
    have : s = [] := List.length_eq_zero.mp (Nat.le_zero.mp h)
    subst this
    simp [forRange]
  | succ k ih =>
    intro s n h
    match s with
    | [] => simp [forRange]
    | b0 :: rest =>
      obtain ⟨hw, hc⟩ := decodeRune_newline b0 rest
      have hlen : ((b0 :: rest).drop (decodeRune (b0 :: rest)).2).length ≤ k := by
        rw [List.length_drop]
        simp only [List.length_cons] at h ⊢
        omega
      have hsplit : (b0 :: rest).count 10 =
          ((b0 :: rest).take (decodeRune (b0 :: rest)).2).count 10 +
          ((b0 :: rest).drop (decodeRune (b0 :: rest)).2).count 10 := by
        rw [← List.count_append, List.take_append_drop]
      simp only [forRange]
      rw [ih _ _ hlen, hsplit, hc]
      split_ifs <;> push_cast <;> ring

/-- With enough fuel the collecting loop gathers as many line-feed code points
as the string has line-feed bytes. -/
theorem forRange_runes_count (fuel : Nat) : ∀ (s : GoString) (acc : List Rune), s.length ≤ fuel →
    (forRange (fun acc c => acc ++ [c]) fuel s acc).count 0x0A
      = acc.count 0x0A + s.count 10 := by
  induction fuel with
  | zero =>
    intro s acc h
    have : s = [] := List.length_eq_zero.mp (Nat.le_zero.mp h)
    subst this
    simp [forRange]
  | succ k ih =>
    intro s acc h
    match s with
    | [] => simp [forRange]
    | b0 :: rest =>
      obtain ⟨hw, hc⟩ := decodeRune_newline b0 rest
      have hlen : ((b0 :: rest).drop (decodeRune (b0 :: rest)).2).length ≤ k := by
        rw [List.length_drop]
        simp only [List.length_cons] at h ⊢
        omega
      have hsplit : (b0 :: rest).count 10 =
          ((b0 :: rest).take (decodeRune (b0 :: rest)).2).count 10 +
          ((b0 :: rest).drop (decodeRune (b0 :: rest)).2).count 10 := by
        rw [← List.count_append, List.take_append_drop]
      simp only [forRange]
      rw [ih _ _ hlen, hsplit, hc, List.count_append]
      split_ifs with h10
      · simp [h10]; ring
      · simp [h10, List.count_cons]

theorem runes_count_newline (s : GoString) : (runes s).count 0x0A = s.count 10 := by
  unfold runes
  rw [forRange_runes_count s.length s [] (Nat.le_refl _)]
  simp

theorem CountLines_eq (s : GoString) :
    CountLines s = if s = [] then (0 : Int) else ((s.count 10 : Nat) : Int) + 1 := by
  unfold CountLines
  split_ifs with h
  · rfl
  · rw [forRange_count s.length s 1 (Nat.le_refl _)]
    ring

theorem decodeRune_width (b0 : Fin 256) (rest : GoString) :
    1 ≤ (decodeRune (b0 :: rest)).2 ∧ (decodeRune (b0 :: rest)).2 ≤ 4 := by
  by_cases h0 : b0.val < 0x80
  · have hd : decodeRune (b0 :: rest) = (b0.val, 1) := by simp [decodeRune, h0]
    rw [hd]
    exact ⟨Nat.le_refl 1, by norm_num⟩
  · rcases decodeRune_multibyte b0 rest h0 with hd | ⟨r, w, hd, _, hw2, hw4, _, _⟩
    · rw [hd]
      exact ⟨Nat.le_refl 1, by norm_num⟩
    · rw [hd]
      exact ⟨by omega, hw4⟩

/-- With enough fuel the collecting loop yields at most one code point per
byte and at least one per four bytes. -/
theorem forRange_runes_length (fuel : Nat) :
    ∀ (s : GoString) (acc : List Rune), s.length ≤ fuel →
      (forRange (fun acc c => acc ++ [c]) fuel s acc).length ≤ acc.length + s.length ∧
      4 * acc.length + s.length ≤ 4 * (forRange (fun acc c => acc ++ [c]) fuel s acc).length := by
  induction fuel with
  | zero =>
    intro s acc h
    have : s = [] := List.length_eq_zero.mp (Nat.le_zero.mp h)
    subst this
    simp [forRange]
  | succ k ih =>
    intro s acc h
    match s with
    | [] => simp [forRange]
    | b0 :: rest =>
      obtain ⟨hw1, hw4⟩ := decodeRune_width b0 rest
      have hdrop : ((b0 :: rest).drop (decodeRune (b0 :: rest)).2).length =
          rest.length + 1 - (decodeRune (b0 :: rest)).2 := by
        rw [List.length_drop, List.length_cons]
      have hlen : ((b0 :: rest).drop (decodeRune (b0 :: rest)).2).length ≤ k := by
        rw [hdrop]
        simp only [List.length_cons] at h
        omega
      obtain ⟨ih1, ih2⟩ := ih _ (acc ++ [(decodeRune (b0 :: rest)).1]) hlen
      simp only [forRange]
      rw [hdrop] at ih1 ih2
      simp only [List.length_append, List.length_cons, List.length_nil] at ih1 ih2 ⊢
      constructor <;> omega

/-- On a string of one-byte characters the loop visits the bytes themselves. -/
theorem forRange_runes_ascii (fuel : Nat) :
    ∀ (s : GoString) (acc : List Rune), s.length ≤ fuel → (∀ b ∈ s, b.val < 0x80) →
      forRange (fun acc c => acc ++ [c]) fuel s acc = acc ++ s.map Fin.val := by
  induction fuel with
  | zero =>
    intro s acc h _
    have : s = [] := List.length_eq_zero.mp (Nat.le_zero.mp h)
    subst this
    simp [forRange]
  | succ k ih =>
    intro s acc h hs
    match s with
    | [] => simp [forRange]
    | b0 :: rest =>
      have h0 : b0.val < 0x80 := hs b0 (List.mem_cons_self _ _)
      have hd : decodeRune (b0 :: rest) = (b0.val, 1) := by simp [decodeRune, h0]
      have hlen : rest.length ≤ k := by
        simp only [List.length_cons] at h
        omega
      simp only [forRange, hd, List.drop_succ_cons, List.drop_zero]
      rw [ih rest _ hlen (fun b hb => hs b (List.mem_cons_of_mem _ hb))]
      simp

theorem runes_length_le (s : GoString) : (runes s).length ≤ s.length := by
  have h := (forRange_runes_length s.length s [] (Nat.le_refl _)).1
  simpa [runes] using h

theorem length_le_four_mul_runes (s : GoString) : s.length ≤ 4 * (runes s).length := by
  have h := (forRange_runes_length s.length s [] (Nat.le_refl _)).2
  simpa [runes] using h

theorem runes_ascii (s : GoString) (h : ∀ b ∈ s, b.val < 0x80) : runes s = s.map Fin.val := by
  unfold runes
  rw [forRange_runes_ascii s.length s [] (Nat.le_refl _) h]
  simp

theorem EstimateTokens_eq (s : GoString) : EstimateTokens s = ((s.length / 4 : Nat) : Int) := by
  unfold EstimateTokens
  rw [Int.tdiv_eq_ediv (Int.natCast_nonneg _) (by norm_num)]
  norm_cast

/-! ## Rounding lemmas -/

theorem roundHalfEven_intCast (n : ℤ) : roundHalfEven (n : ℚ) = n := by
  simp [roundHalfEven]

theorem roundHalfEven_le_of_le (q : ℚ) (n : ℤ) (h : q ≤ n) : roundHalfEven q ≤ n := by
  have hf : ⌊q⌋ ≤ n := by
    have : ((⌊q⌋ : ℤ) : ℚ) ≤ n := le_trans (Int.floor_le q) h
    exact_mod_cast this
  have hstep : (1 : ℚ) / 2 ≤ q - ⌊q⌋ → ⌊q⌋ + 1 ≤ n := by
    intro hh
    have : ((⌊q⌋ : ℤ) : ℚ) < n := by linarith
    have : ⌊q⌋ < n := by exact_mod_cast this
    omega
  unfold roundHalfEven
  simp only
  split_ifs with h1 h2 h3
  · exact hf
  · exact hstep (le_of_lt h2)
  · exact hf
  · exact hstep (not_lt.mp h1)

theorem roundFloat64_zero : roundFloat64 0 = 0 := by
  simp [roundFloat64]

theorem roundFloat64_le_neg (x : ℚ) (k : ℤ) (h : x ≤ -(2 : ℚ) ^ k) :
    roundFloat64 x ≤ -(2 : ℚ) ^ k := by
  have hk : (0 : ℚ) < 2 ^ k := zpow_pos (by norm_num) k
  have hx : x < 0 := by linarith
  have habs : |x| = -x := abs_of_neg hx
  have hpos : 0 < |x| := by rw [habs]; linarith
  have hke : k ≤ Int.log 2 |x| := by
    rw [← Int.zpow_le_iff_le_log (by norm_num) hpos, habs]
    push_cast
    linarith
  have hle : (2 : ℚ) ^ Int.log 2 |x| ≤ -x := by
    have h2 := Int.zpow_log_le_self (b := 2) (r := |x|) (by norm_num) hpos
    have h3 : (2 : ℚ) ^ Int.log 2 |x| ≤ |x| := by exact_mod_cast h2
    exact le_trans h3 (le_of_eq habs)
  have hdef : roundFloat64 x =
      roundHalfEven (x / 2 ^ (Int.log 2 |x| - 52)) * 2 ^ (Int.log 2 |x| - 52) := by
    simp [roundFloat64, ne_of_lt hx]
  rw [hdef]
  generalize Int.log 2 |x| = e at hke hle
  have hulp : (0 : ℚ) < 2 ^ (e - 52) := zpow_pos (by norm_num) _
  have hsplit : (2 : ℚ) ^ e = 2 ^ (52 : ℕ) * 2 ^ (e - 52) := by
    rw [← zpow_natCast, ← zpow_add₀ (by norm_num)]
    congr 1
    push_cast
    ring
  have hq : x / 2 ^ (e - 52) ≤ ((-(2 ^ 52) : ℤ) : ℚ) := by
    rw [div_le_iff₀ hulp]
    push_cast
    linarith
  have hr := roundHalfEven_le_of_le _ _ hq
  have hr2 : ((roundHalfEven (x / 2 ^ (e - 52)) : ℤ) : ℚ) ≤ ((-(2 ^ 52) : ℤ) : ℚ) := by
    exact_mod_cast hr
  have hke2 : (2 : ℚ) ^ k ≤ 2 ^ e := zpow_le_zpow_right₀ (by norm_num) hke
  calc (roundHalfEven (x / 2 ^ (e - 52)) : ℚ) * 2 ^ (e - 52)
      ≤ ((-(2 ^ 52) : ℤ) : ℚ) * 2 ^ (e - 52) := mul_le_mul_of_nonneg_right hr2 (le_of_lt hulp)
    _ = -(2 : ℚ) ^ e := by rw [hsplit]; push_cast; ring
    _ ≤ -(2 : ℚ) ^ k := by linarith

theorem roundFloat64_nonpos (x : ℚ) (h : x ≤ 0) : roundFloat64 x ≤ 0 := by
  rcases eq_or_lt_of_le h with h0 | hneg
  · rw [h0, roundFloat64_zero]
  · have habs : |x| = -x := abs_of_neg hneg
    have hpos : 0 < |x| := by rw [habs]; linarith
    have h2 := Int.zpow_log_le_self (b := 2) (r := |x|) (by norm_num) hpos
    have h3 : (2 : ℚ) ^ Int.log 2 |x| ≤ |x| := by exact_mod_cast h2
    have h4 : x ≤ -(2 : ℚ) ^ Int.log 2 |x| := by
      have h7 : (2 : ℚ) ^ Int.log 2 |x| ≤ -x := le_trans h3 (le_of_eq habs)
      linarith
    have h5 := roundFloat64_le_neg x _ h4
    have h6 : (0 : ℚ) < 2 ^ Int.log 2 |x| := zpow_pos (by norm_num) _
    linarith

theorem roundFloat64_intCast (n : ℤ) (h : |n| < 2 ^ 53) : roundFloat64 (n : ℚ) = n := by
  by_cases hn : n = 0
  · subst hn; simp [roundFloat64]
  · have hq : (n : ℚ) ≠ 0 := by exact_mod_cast hn
    have hpos : (0 : ℚ) < |(n : ℚ)| := abs_pos.mpr hq
    have h1 : (1 : ℚ) ≤ |(n : ℚ)| := by
      have : (1 : ℤ) ≤ |n| := Int.one_le_abs hn
      exact_mod_cast this
    have hlo : 0 ≤ Int.log 2 |(n : ℚ)| := by
      rw [← Int.zpow_le_iff_le_log (by norm_num) hpos]
      simpa using h1
    have hhi : Int.log 2 |(n : ℚ)| < 53 := by
      rw [← Int.lt_zpow_iff_log_lt (by norm_num) hpos]
      have h5 : ((|n| : ℤ) : ℚ) < ((2 ^ 53 : ℤ) : ℚ) := by exact_mod_cast h
      have h6 : |(n : ℚ)| < (2 : ℚ) ^ (53 : ℕ) := by
        rw [← Int.cast_abs]
        exact_mod_cast h5
      exact_mod_cast h6
    have hdef : roundFloat64 (n : ℚ) =
        roundHalfEven ((n : ℚ) / 2 ^ (Int.log 2 |(n : ℚ)| - 52)) *
          2 ^ (Int.log 2 |(n : ℚ)| - 52) := by
      simp [roundFloat64, hq]
    rw [hdef]
    generalize Int.log 2 |(n : ℚ)| = e at hlo hhi
    obtain ⟨j, hj⟩ : ∃ j : ℕ, e - 52 = -(j : ℤ) := ⟨(52 - e).toNat, by omega⟩
    rw [hj, zpow_neg, zpow_natCast]
    have hint : (n : ℚ) / ((2 : ℚ) ^ j)⁻¹ = ((n * 2 ^ j : ℤ) : ℚ) := by
      push_cast
      field_simp
    rw [hint, roundHalfEven_intCast]
    push_cast
    field_simp

/-! ## `CountLines` -/

/-- Claim C1: `CountLines` of the empty text is 0, and of a non-empty text it
is the number of line-feed characters met by the loop plus one (which is also
the number of line-feed bytes plus one); a trailing separator starts a further
counted line, so the counts of "a\nb", "a\nb\n" and "\n" are 2, 3 and 2. -/
theorem CountLines_spec :
    (∀ T : GoString, CountLines T =
        if T = GoString.lit "" then 0 else (((runes T).count 0x0A : Nat) : Int) + 1) ∧
    (∀ T : GoString, (runes T).count 0x0A = T.count 10) ∧
    CountLines (GoString.lit "") = 0 ∧
    CountLines (GoString.lit "a\nb") = 2 ∧
    CountLines (GoString.lit "a\nb\n") = 3 ∧
    CountLines (GoString.lit "\n") = 2 := by
  refine ⟨?_, runes_count_newline, by decide, by decide, by decide, by decide⟩
  intro T
  rw [CountLines_eq, runes_count_newline]
  rfl

/-- Claim C10: the count of a concatenation of two non-empty texts is the sum
of the counts minus one; concatenating the empty text on either side changes
nothing; and for a non-empty text cut into `k` non-empty chunks the sum of the
counts of the chunks exceeds the count of the whole text by exactly `k - 1`. -/
theorem CountLines_concat (A B T : GoString) (chunks : List GoString)
    (hA : A ≠ GoString.lit "") (hB : B ≠ GoString.lit "")
    (hk : chunks ≠ []) (hchunks : ∀ c ∈ chunks, c ≠ GoString.lit "") :
    CountLines (A ++ B) = CountLines A + CountLines B - 1 ∧
    CountLines (T ++ GoString.lit "") = CountLines T ∧
    CountLines (GoString.lit "" ++ T) = CountLines T ∧
    (chunks.map CountLines).sum = CountLines chunks.flatten + ((chunks.length : Int) - 1) := by
  have hlit : GoString.lit "" = [] := rfl
  rw [hlit] at hA hB
  simp only [hlit] at hchunks
  refine ⟨?_, ?_, ?_, ?_⟩
  · have hAB : A ++ B ≠ [] := by simp [hA]
    rw [CountLines_eq, CountLines_eq, CountLines_eq, if_neg hAB, if_neg hA, if_neg hB,
      List.count_append]
    push_cast
    ring
  · rw [hlit, List.append_nil]
  · rw [hlit, List.nil_append]
  · clear hA hB
    induction chunks with
    | nil => exact absurd rfl hk
    | cons c cs ih =>
      have hc : c ≠ [] := hchunks c (List.mem_cons_self _ _)
      by_cases hcs : cs = []
      · subst hcs
        simp
      · have ih2 := ih hcs (fun d hd => hchunks d (List.mem_cons_of_mem _ hd))
        have hfl : cs.flatten ≠ [] := by
          obtain ⟨d, ds, rfl⟩ := List.exists_cons_of_ne_nil hcs
          have hd : d ≠ [] := hchunks d (by simp)
          simp [hd]
        have hall : c ++ cs.flatten ≠ [] := by simp [hc]
        rw [List.map_cons, List.sum_cons, ih2, List.flatten_cons, List.length_cons]
        rw [CountLines_eq (c ++ cs.flatten), CountLines_eq c, CountLines_eq cs.flatten,
          if_neg hall, if_neg hc, if_neg hfl, List.count_append]
        push_cast
        ring

/-- Witness for C10 on the chunks "a\n", "b", "\n\nc". -/
theorem CountLines_concat_witness :
    CountLines (GoString.lit "a\n" ++ GoString.lit "b") =
        CountLines (GoString.lit "a\n") + CountLines (GoString.lit "b") - 1 ∧
    CountLines (GoString.lit "x\ny" ++ GoString.lit "") = CountLines (GoString.lit "x\ny") ∧
    CountLines (GoString.lit "" ++ GoString.lit "x\ny") = CountLines (GoString.lit "x\ny") ∧
    ([GoString.lit "a\n", GoString.lit "b", GoString.lit "\n\nc"].map CountLines).sum =
        CountLines [GoString.lit "a\n", GoString.lit "b", GoString.lit "\n\nc"].flatten
          + ((([GoString.lit "a\n", GoString.lit "b", GoString.lit "\n\nc"].length : Nat) : Int) - 1) :=
  CountLines_concat (GoString.lit "a\n") (GoString.lit "b") (GoString.lit "x\ny")
    [GoString.lit "a\n", GoString.lit "b", GoString.lit "\n\nc"]
    (by decide) (by decide) (by decide) (by decide)

/-! ## `EstimateTokens` -/

/-- Counterexample to C2 as stated: the text "éééé" has four characters and
eight bytes, and its estimate is 2, not 4 / 4 = 1. -/
theorem EstimateTokens_chars_counterexample :
    (runes (GoString.lit "éééé")).length = 4 ∧
    EstimateTokens (GoString.lit "éééé") = 2 ∧
    ¬ (EstimateTokens (GoString.lit "éééé") =
        Int.tdiv ((runes (GoString.lit "éééé")).length : Int) 4) := by
  decide

/-- Claim C2, amended: the estimate is the length of the text in bytes (of its
UTF-8 encoding) divided by four, rounded down.  It is never below the number
of characters divided by four, and it equals it for every text made of
one-byte (ASCII) characters; the estimates of "", "abcd" and "abcdefg" are
0, 1 and 1. -/
theorem EstimateTokens_bytes (T : GoString) :
    EstimateTokens T = ((T.length / 4 : Nat) : Int) ∧
    (((runes T).length / 4 : Nat) : Int) ≤ EstimateTokens T ∧
    ((∀ b ∈ T, b.val < 0x80) → EstimateTokens T = (((runes T).length / 4 : Nat) : Int)) ∧
    EstimateTokens (GoString.lit "") = 0 ∧
    EstimateTokens (GoString.lit "abcd") = 1 ∧
    EstimateTokens (GoString.lit "abcdefg") = 1 := by
  refine ⟨EstimateTokens_eq T, ?_, ?_, by decide, by decide, by decide⟩
  · rw [EstimateTokens_eq]
    have := runes_length_le T
    exact_mod_cast Nat.div_le_div_right this
  · intro h
    rw [EstimateTokens_eq, runes_ascii T h, List.length_map]

/-- Witness for C2 (amended) on the ASCII text "hello". -/
theorem EstimateTokens_bytes_witness :
    EstimateTokens (GoString.lit "hello") = 1 ∧
    EstimateTokens (GoString.lit "hello") =
      (((runes (GoString.lit "hello")).length / 4 : Nat) : Int) :=
  ⟨by decide, (EstimateTokens_bytes (GoString.lit "hello")).2.2.1
    (by simp [GoString.lit, encodeRune, byte]; decide)⟩

/-! ## `CreateBackup` -/

theorem backupPath_ne (P : GoString) : P ≠ P ++ GoString.lit ".backup" := by
  intro h
  have hl := congrArg List.length h
  have h7 : (GoString.lit ".backup").length = 7 := by decide
  rw [List.length_append, h7] at hl
  omega

theorem andNot_of_disjoint (a b : Nat) (h : a &&& b = 0) : andNot a b = a := by
  unfold andNot
  rw [h, Nat.xor_zero]

theorem store_lookup_same (fs : FileSystem) (name : GoString) (f : File) :
    (fs.store name f).lookup name = some f := by
  simp [FileSystem.store, FileSystem.lookup]

theorem store_lookup_other (fs : FileSystem) (name q : GoString) (f : File)
    (h : fs.resolve q ≠ fs.resolve name) :
    (fs.store name f).lookup q = fs.lookup q := by
  simp [FileSystem.store, FileSystem.lookup, h]

theorem WriteFile_frame (fs : FileSystem) (name q data : GoString) (perm : Nat)
    (h : fs.resolve q ≠ fs.resolve name) :
    (WriteFile fs name data perm).2.lookup q = fs.lookup q := by
  unfold WriteFile
  cases fs.openFault name with
  | some e => rfl
  | none =>
    cases fs.writeFault name with
    | some p => exact store_lookup_other fs name q _ h
    | none => exact store_lookup_other fs name q _ h

theorem WriteFile_files_other (fs : FileSystem) (name k data : GoString) (perm : Nat)
    (h : k ≠ fs.resolve name) :
    (WriteFile fs name data perm).2.files k = fs.files k := by
  unfold WriteFile
  cases fs.openFault name with
  | some e => rfl
  | none =>
    cases fs.writeFault name with
    | some p => simp [FileSystem.store, h]
    | none => simp [FileSystem.store, h]

theorem WriteFile_rest (fs : FileSystem) (name data : GoString) (perm : Nat) :
    (WriteFile fs name data perm).2.resolve = fs.resolve ∧
    (WriteFile fs name data perm).2.umask = fs.umask ∧
    (WriteFile fs name data perm).2.readFault = fs.readFault ∧
    (WriteFile fs name data perm).2.openFault = fs.openFault ∧
    (WriteFile fs name data perm).2.writeFault = fs.writeFault := by
  unfold WriteFile
  cases fs.openFault name with
  | some e => exact ⟨rfl, rfl, rfl, rfl, rfl⟩
  | none =>
    cases fs.writeFault name with
    | some p => exact ⟨rfl, rfl, rfl, rfl, rfl⟩
    | none => exact ⟨rfl, rfl, rfl, rfl, rfl⟩

/-- Counterexample to C5 as stated: under the umask 077 the file `notes.txt`
is readable, the backup path is writable and holds no file, the call succeeds,
and the new backup has mode 0600, not 0644. -/
theorem CreateBackup_mode_counterexample :
    ReadFile strictFS (GoString.lit "notes.txt") = Except.ok (GoString.lit "hello\n") ∧
    strictFS.openFault (GoString.lit "notes.txt" ++ GoString.lit ".backup") = none ∧
    strictFS.writeFault (GoString.lit "notes.txt" ++ GoString.lit ".backup") = none ∧
    strictFS.lookup (GoString.lit "notes.txt" ++ GoString.lit ".backup") = none ∧
    (CreateBackup strictFS (GoString.lit "notes.txt")).1 = none ∧
    (CreateBackup strictFS (GoString.lit "notes.txt")).2.lookup
        (GoString.lit "notes.txt" ++ GoString.lit ".backup")
      = some { content := GoString.lit "hello\n", mode := 0o600 } ∧
    ¬ ((CreateBackup strictFS (GoString.lit "notes.txt")).2.lookup
        (GoString.lit "notes.txt" ++ GoString.lit ".backup")
      = some { content := GoString.lit "hello\n", mode := 0o644 }) :=
  ⟨rfl, rfl, rfl, by decide, by decide, by decide, by decide⟩

/-- Claim C5, amended: when the file at `P` is readable with content `C` and
the path `P + ".backup"` can be opened and written, `CreateBackup(P)` returns
no error and afterwards the file at `P + ".backup"` has exactly the content
`C`.  When it did not exist before it has the mode `0644 &^ umask`, which is
0644 whenever the umask clears none of these bits (as the usual 022); when it
existed it keeps its mode. -/
theorem CreateBackup_success (fs : FileSystem) (P C : GoString)
    (hread : ReadFile fs P = Except.ok C)
    (hopen : fs.openFault (P ++ GoString.lit ".backup") = none)
    (hwrite : fs.writeFault (P ++ GoString.lit ".backup") = none) :
    (CreateBackup fs P).1 = none ∧
    (∃ f, (CreateBackup fs P).2.lookup (P ++ GoString.lit ".backup") = some f ∧ f.content = C) ∧
    (fs.lookup (P ++ GoString.lit ".backup") = none →
      (CreateBackup fs P).2.lookup (P ++ GoString.lit ".backup")
        = some { content := C, mode := andNot 0o644 fs.umask }) ∧
    (fs.lookup (P ++ GoString.lit ".backup") = none → 0o644 &&& fs.umask = 0 →
      (CreateBackup fs P).2.lookup (P ++ GoString.lit ".backup")
        = some { content := C, mode := 0o644 }) ∧
    (∀ g, fs.lookup (P ++ GoString.lit ".backup") = some g →
      (CreateBackup fs P).2.lookup (P ++ GoString.lit ".backup")
        = some { content := C, mode := g.mode }) := by
  have hcb : CreateBackup fs P =
      (none, fs.store (P ++ GoString.lit ".backup")
        { content := C,
          mode := match fs.lookup (P ++ GoString.lit ".backup") with
            | some f => f.mode
            | none => andNot 0o644 fs.umask }) := by
    simp only [CreateBackup, hread, WriteFile, hopen, hwrite]
  rw [hcb]
  refine ⟨rfl, ⟨_, store_lookup_same _ _ _, rfl⟩, ?_, ?_, ?_⟩
  · intro hnone
    rw [store_lookup_same, hnone]
  · intro hnone hmask
    rw [store_lookup_same, hnone]
    simp only [andNot_of_disjoint _ _ hmask]
  · intro g hg
    rw [store_lookup_same, hg]

/-- Witness for C5 (amended): backing up `notes.txt` in the sample file system
(umask 022) and under the umask 077. -/
theorem CreateBackup_success_witness :
    (CreateBackup sampleFS (GoString.lit "notes.txt")).1 = none ∧
    (CreateBackup sampleFS (GoString.lit "notes.txt")).2.lookup
        (GoString.lit "notes.txt" ++ GoString.lit ".backup")
      = some { content := GoString.lit "hello\n", mode := 0o644 } ∧
    (CreateBackup strictFS (GoString.lit "notes.txt")).2.lookup
        (GoString.lit "notes.txt" ++ GoString.lit ".backup")
      = some { content := GoString.lit "hello\n", mode := andNot 0o644 strictFS.umask } :=
  ⟨(CreateBackup_success sampleFS (GoString.lit "notes.txt") (GoString.lit "hello\n")
      rfl rfl rfl).1,
   (CreateBackup_success sampleFS (GoString.lit "notes.txt") (GoString.lit "hello\n")
      rfl rfl rfl).2.2.2.1 (by decide) (by decide),
   (CreateBackup_success strictFS (GoString.lit "notes.txt") (GoString.lit "hello\n")
      rfl rfl rfl).2.2.1 (by decide)⟩

/-- Claim C6: when no readable file exists at `P` (the file is missing, or the
read is refused or fails), `CreateBackup(P)` returns the error of the read and
the file system is exactly as before: the write is never reached. -/
theorem CreateBackup_read_error (fs : FileSystem) (P : GoString)
    (h : fs.lookup P = none ∨ fs.readFault P ≠ none) :
    ∃ e, ReadFile fs P = Except.error e ∧ CreateBackup fs P = (some e, fs) := by
  have key : ∀ e, ReadFile fs P = Except.error e → CreateBackup fs P = (some e, fs) := by
    intro e he
    simp only [CreateBackup, he]
  rcases h with hmiss | hfault
  · have hr : ReadFile fs P = Except.error GoError.notExist := by
      simp only [ReadFile, hmiss]
    exact ⟨_, hr, key _ hr⟩
  · cases hf : fs.lookup P with
    | none =>
      have hr : ReadFile fs P = Except.error GoError.notExist := by
        simp only [ReadFile, hf]
      exact ⟨_, hr, key _ hr⟩
    | some f =>
      cases hrf : fs.readFault P with
      | none => exact absurd hrf hfault
      | some e =>
        have hr : ReadFile fs P = Except.error e := by
          simp only [ReadFile, hf, hrf]
        exact ⟨_, hr, key _ hr⟩

/-- Witness for C6: a missing path in the sample file system. -/
theorem CreateBackup_read_error_witness :
    ∃ e, ReadFile sampleFS (GoString.lit "missing.txt") = Except.error e ∧
      CreateBackup sampleFS (GoString.lit "missing.txt") = (some e, sampleFS) :=
  CreateBackup_read_error sampleFS (GoString.lit "missing.txt") (Or.inl (by decide))

/-- Counterexample to C7 as stated: for `P = "./notes.txt"` the path
`notes.txt.backup` differs from `P + ".backup"`, holds no file before the call
and holds the copy after it, because both spellings name the same file. -/
theorem CreateBackup_alias_counterexample :
    GoString.lit "notes.txt.backup" ≠ GoString.lit "./notes.txt" ++ GoString.lit ".backup" ∧
    sampleFS.lookup (GoString.lit "notes.txt.backup") = none ∧
    (CreateBackup sampleFS (GoString.lit "./notes.txt")).1 = none ∧
    (CreateBackup sampleFS (GoString.lit "./notes.txt")).2.lookup (GoString.lit "notes.txt.backup")
      = some { content := GoString.lit "hello\n", mode := 0o644 } ∧
    ¬ ((CreateBackup sampleFS (GoString.lit "./notes.txt")).2.lookup
          (GoString.lit "notes.txt.backup")
        = sampleFS.lookup (GoString.lit "notes.txt.backup")) := by
  refine ⟨by decide, by decide, by decide, by decide, by decide⟩

/-- Claim C7, amended: `CreateBackup(P)` changes at most the one file that the
path `P + ".backup"` denotes: every path `q` that does not resolve to that
file holds the same file (or none, with the same content and mode) after the
call as before, whether the call succeeds or fails.  This covers the source
`P` whenever `P + ".backup"` is not another name of the file at `P`; as
strings `P` and `P + ".backup"` always differ.  The resolution of paths, the
umask and what the environment refuses are unchanged as well. -/
theorem CreateBackup_frame (fs : FileSystem) (P q : GoString)
    (hq : fs.resolve q ≠ fs.resolve (P ++ GoString.lit ".backup")) :
    (CreateBackup fs P).2.lookup q = fs.lookup q ∧
    P ≠ P ++ GoString.lit ".backup" ∧
    (fs.resolve P ≠ fs.resolve (P ++ GoString.lit ".backup") →
      (CreateBackup fs P).2.lookup P = fs.lookup P) ∧
    (∀ k, k ≠ fs.resolve (P ++ GoString.lit ".backup") →
      (CreateBackup fs P).2.files k = fs.files k) ∧
    (CreateBackup fs P).2.resolve = fs.resolve ∧
    (CreateBackup fs P).2.umask = fs.umask ∧
    (CreateBackup fs P).2.readFault = fs.readFault ∧
    (CreateBackup fs P).2.openFault = fs.openFault ∧
    (CreateBackup fs P).2.writeFault = fs.writeFault := by
  have frame : ∀ r, fs.resolve r ≠ fs.resolve (P ++ GoString.lit ".backup") →
      (CreateBackup fs P).2.lookup r = fs.lookup r := by
    intro r hr
    unfold CreateBackup
    split
    · rfl
    · exact WriteFile_frame fs _ r _ _ hr
  have keys : ∀ k, k ≠ fs.resolve (P ++ GoString.lit ".backup") →
      (CreateBackup fs P).2.files k = fs.files k := by
    intro k hk
    unfold CreateBackup
    split
    · rfl
    · exact WriteFile_files_other fs _ k _ _ hk
  have rest : (CreateBackup fs P).2.resolve = fs.resolve ∧
      (CreateBackup fs P).2.umask = fs.umask ∧
      (CreateBackup fs P).2.readFault = fs.readFault ∧
      (CreateBackup fs P).2.openFault = fs.openFault ∧
      (CreateBackup fs P).2.writeFault = fs.writeFault := by
    unfold CreateBackup
    split
    · exact ⟨rfl, rfl, rfl, rfl, rfl⟩
    · exact WriteFile_rest fs _ _ _
  exact ⟨frame q hq, backupPath_ne P, frame P, keys, rest⟩

/-- Witness for C7 (amended): after backing up `./notes.txt` an unrelated path
and the source are as before. -/
theorem CreateBackup_frame_witness :
    (CreateBackup sampleFS (GoString.lit "./notes.txt")).2.lookup (GoString.lit "other.txt")
      = sampleFS.lookup (GoString.lit "other.txt") ∧
    GoString.lit "./notes.txt" ≠ GoString.lit "./notes.txt" ++ GoString.lit ".backup" ∧
    (CreateBackup sampleFS (GoString.lit "./notes.txt")).2.lookup (GoString.lit "./notes.txt")
      = sampleFS.lookup (GoString.lit "./notes.txt") :=
  ⟨(CreateBackup_frame sampleFS (GoString.lit "./notes.txt") (GoString.lit "other.txt")
      (by decide)).1,
   (CreateBackup_frame sampleFS (GoString.lit "./notes.txt") (GoString.lit "other.txt")
      (by decide)).2.1,
   (CreateBackup_frame sampleFS (GoString.lit "./notes.txt") (GoString.lit "other.txt")
      (by decide)).2.2.1 (by decide)⟩

/-! ## The `big_rewrite` handler -/

/-- Claim C9: for every context, request, input and file system the handler
returns a result with exactly one content item, the text "Not implemented
yet", a nil structured output and a nil error, and leaves the file system as
it is; the answer is the same for any other request, input and file system. -/
theorem bigRewriteHandler_fixed {Ctx Req : Type} (ctx ctx2 : Ctx) (req req2 : Req)
    (input input2 : BigRewriteInput) (fs fs2 : FileSystem) :
    bigRewriteHandler ctx req input fs =
      ((some { Content := [Content.text { Text := GoString.lit "Not implemented yet" }] },
        none, none), fs) ∧
    (bigRewriteHandler ctx req input fs).1 = (bigRewriteHandler ctx2 req2 input2 fs2).1 ∧
    (bigRewriteHandler ctx req { FilePath := GoString.lit "" } fs).1 =
      (bigRewriteHandler ctx req input fs).1 :=
  ⟨rfl, rfl, rfl⟩

/-! ## `CalculateCost` -/

theorem roundFloat64_small_int (n : ℤ) (h : |n| < 2 ^ 53) (q : ℚ) (hq : q = (n : ℚ)) :
    roundFloat64 q = q := by
  rw [hq]
  exact roundFloat64_intCast n h

/-- One cost term is never positive for a non-positive token count, for any
rounding that keeps non-positive values non-positive. -/
theorem costTerm_nonpos (rnd : ℚ → ℚ) (h0 : ∀ x, x ≤ 0 → rnd x ≤ 0)
    (t : ℤ) (c : ℚ) (hc : 0 ≤ c) (ht : t ≤ 0) :
    rnd (rnd (rnd (t : ℚ) * c) / 1000000) ≤ 0 := by
  have h1 : rnd (t : ℚ) ≤ 0 := h0 _ (by exact_mod_cast ht)
  have h2 : rnd (rnd (t : ℚ) * c) ≤ 0 := h0 _ (mul_nonpos_of_nonpos_of_nonneg h1 hc)
  exact h0 _ (div_nonpos_of_nonpos_of_nonneg h2 (by norm_num))

/-- One cost term is at most `-2^(-20)` for a negative token count and a rate of
at least one, for any rounding that never moves a value across a negated power
of two. -/
theorem costTerm_neg (rnd : ℚ → ℚ) (h2 : ∀ (x : ℚ) (k : ℤ), x ≤ -(2 : ℚ) ^ k → rnd x ≤ -(2 : ℚ) ^ k)
    (t : ℤ) (c : ℚ) (hc : 1 ≤ c) (ht : t < 0) :
    rnd (rnd (rnd (t : ℚ) * c) / 1000000) ≤ -(2 : ℚ) ^ (-20 : ℤ) := by
  have ht1 : (t : ℚ) ≤ -(2 : ℚ) ^ (0 : ℤ) := by
    have : t ≤ -1 := by omega
    have : (t : ℚ) ≤ -1 := by exact_mod_cast this
    simpa using this
  have s1 : rnd (t : ℚ) ≤ -1 := by simpa using h2 _ 0 ht1
  have s2 : rnd (t : ℚ) * c ≤ -(2 : ℚ) ^ (0 : ℤ) := by
    have : rnd (t : ℚ) * c ≤ -1 := by nlinarith
    simpa using this
  have s3 : rnd (rnd (t : ℚ) * c) ≤ -1 := by simpa using h2 _ 0 s2
  have s4 : rnd (rnd (t : ℚ) * c) / 1000000 ≤ -(2 : ℚ) ^ (-20 : ℤ) := by
    rw [div_le_iff₀ (by norm_num)]
    have : -(2 : ℚ) ^ (-20 : ℤ) * 1000000 = -(1000000 / 1048576) := by norm_num
    rw [this]
    linarith
  exact h2 _ _ s4

/-- The sum of two cost terms, not both zero, is negative after rounding. -/
theorem costSum_neg (rnd : ℚ → ℚ) (h0 : ∀ x, x ≤ 0 → rnd x ≤ 0)
    (h2 : ∀ (x : ℚ) (k : ℤ), x ≤ -(2 : ℚ) ^ k → rnd x ≤ -(2 : ℚ) ^ k)
    (i o : ℤ) (ci co : ℚ) (hci : 1 ≤ ci) (hco : 1 ≤ co)
    (hi : i ≤ 0) (ho : o ≤ 0) (hne : ¬ (i = 0 ∧ o = 0)) :
    rnd (rnd (rnd (rnd (i : ℚ) * ci) / 1000000) + rnd (rnd (rnd (o : ℚ) * co) / 1000000)) < 0 := by
  have hpow : (0 : ℚ) < 2 ^ (-20 : ℤ) := zpow_pos (by norm_num) _
  have ai := costTerm_nonpos rnd h0 i ci (by linarith) hi
  have ao := costTerm_nonpos rnd h0 o co (by linarith) ho
  have hsum : rnd (rnd (rnd (i : ℚ) * ci) / 1000000) + rnd (rnd (rnd (o : ℚ) * co) / 1000000)
      ≤ -(2 : ℚ) ^ (-20 : ℤ) := by
    by_cases hi0 : i < 0
    · have := costTerm_neg rnd h2 i ci hci hi0
      linarith
    · have ho0 : o < 0 := by
        by_contra hcon
        exact hne ⟨by omega, by omega⟩
      have := costTerm_neg rnd h2 o co hco ho0
      linarith
  have := h2 _ _ hsum
  linarith

/-- The `switch` of `CalculateCost` selects the rates of the table. -/
theorem CalculateCost_eq_formula (rnd : ℚ → ℚ) (i o : Int) (name : String) (inRate outRate : ℚ)
    (hp : (name, inRate, outRate) ∈ specRates) :
    CalculateCost rnd i o (GoString.lit name) =
      rnd (rnd (rnd (rnd (i : ℚ) * inRate) / 1000000) +
        rnd (rnd (rnd (o : ℚ) * outRate) / 1000000)) := by
  simp only [specRates, List.mem_cons, Prod.mk.injEq, List.mem_nil_iff, or_false] at hp
  have n1 : GoString.lit "claude-sonnet" ≠ GoString.lit "claude-opus" := by decide
  have n2 : GoString.lit "gemini" ≠ GoString.lit "claude-opus" := by decide
  have n3 : GoString.lit "gemini" ≠ GoString.lit "claude-sonnet" := by decide
  have n4 : GoString.lit "gpt-4" ≠ GoString.lit "claude-opus" := by decide
  have n5 : GoString.lit "gpt-4" ≠ GoString.lit "claude-sonnet" := by decide
  have n6 : GoString.lit "gpt-4" ≠ GoString.lit "gemini" := by decide
  rcases hp with ⟨rfl, rfl, rfl⟩ | ⟨rfl, rfl, rfl⟩ | ⟨rfl, rfl, rfl⟩ | ⟨rfl, rfl, rfl⟩
  · simp only [CalculateCost, if_true]
  · simp only [CalculateCost, if_neg n1, if_true]
  · simp only [CalculateCost, if_neg n2, if_neg n3, if_true]
  · simp only [CalculateCost, if_neg n4, if_neg n5, if_neg n6, if_true]

theorem specRates_ge_one (name : String) (inRate outRate : ℚ)
    (hp : (name, inRate, outRate) ∈ specRates) : 1 ≤ inRate ∧ 1 ≤ outRate := by
  simp only [specRates, List.mem_cons, Prod.mk.injEq, List.mem_nil_iff, or_false] at hp
  rcases hp with ⟨_, rfl, rfl⟩ | ⟨_, rfl, rfl⟩ | ⟨_, rfl, rfl⟩ | ⟨_, rfl, rfl⟩ <;>
    constructor <;> norm_num

/-- Claim C3: for each of the four recognised providers and all token counts,
`CalculateCost` is `i × inRate / 1,000,000 + o × outRate / 1,000,000` with the
rates of the table: operation by operation under any rounding, and as an
identity of rational numbers when the arithmetic is read exactly.  One million
tokens each way with "claude-opus" cost 90, in exact arithmetic and in
`float64` arithmetic alike. -/
theorem CalculateCost_formula (rnd : ℚ → ℚ) (i o : Int) (name : String) (inRate outRate : ℚ)
    (hp : (name, inRate, outRate) ∈ specRates) :
    CalculateCost rnd i o (GoString.lit name) =
      rnd (rnd (rnd (rnd (i : ℚ) * inRate) / 1000000) + rnd (rnd (rnd (o : ℚ) * outRate) / 1000000)) ∧
    CalculateCost id i o (GoString.lit name) =
      (i : ℚ) * inRate / 1000000 + (o : ℚ) * outRate / 1000000 ∧
    CalculateCost id 1000000 1000000 (GoString.lit "claude-opus") = 90 ∧
    CalculateCost roundFloat64 1000000 1000000 (GoString.lit "claude-opus") = 90 := by
  refine ⟨CalculateCost_eq_formula rnd i o name inRate outRate hp, ?_, ?_, ?_⟩
  · rw [CalculateCost_eq_formula id i o name inRate outRate hp]
    simp only [id]
  · simp only [CalculateCost, if_true, id]
    norm_num
  · have e1 : roundFloat64 1000000 = 1000000 :=
      roundFloat64_small_int 1000000 (by norm_num) _ (by norm_num)
    have e2 : roundFloat64 15000000 = 15000000 :=
      roundFloat64_small_int 15000000 (by norm_num) _ (by norm_num)
    have e3 : roundFloat64 15 = 15 := roundFloat64_small_int 15 (by norm_num) _ (by norm_num)
    have e4 : roundFloat64 75000000 = 75000000 :=
      roundFloat64_small_int 75000000 (by norm_num) _ (by norm_num)
    have e5 : roundFloat64 75 = 75 := roundFloat64_small_int 75 (by norm_num) _ (by norm_num)
    have e6 : roundFloat64 90 = 90 := roundFloat64_small_int 90 (by norm_num) _ (by norm_num)
    simp only [CalculateCost, if_true]
    norm_num [e1, e2, e3, e4, e5, e6]

/-- Witness for C3: the "gemini" row at 2,000,000 input and 400,000 output
tokens. -/
theorem CalculateCost_formula_witness :
    CalculateCost id 2000000 400000 (GoString.lit "gemini") =
      ((2000000 : Int) : ℚ) * (5 / 4) / 1000000 + ((400000 : Int) : ℚ) * 5 / 1000000 :=
  (CalculateCost_formula id 2000000 400000 "gemini" (5 / 4) 5 (by simp [specRates])).2.1

/-- Claim C4: for every provider string other than the four recognised
identifiers (compared byte for byte, so differing in case or by surrounding
blanks is enough) `CalculateCost` returns 0, whatever the token counts and the
rounding; the function has no error result.  In particular the cost of
1,000,000 tokens each way with "unknown-provider" is 0. -/
theorem CalculateCost_unknown (rnd : ℚ → ℚ) (i o : Int) (provider : GoString)
    (h1 : provider ≠ GoString.lit "claude-opus")
    (h2 : provider ≠ GoString.lit "claude-sonnet")
    (h3 : provider ≠ GoString.lit "gemini")
    (h4 : provider ≠ GoString.lit "gpt-4") :
    CalculateCost rnd i o provider = 0 ∧
    CalculateCost rnd 1000000 1000000 (GoString.lit "unknown-provider") = 0 ∧
    CalculateCost rnd i o (GoString.lit "Claude-Opus") = 0 ∧
    CalculateCost rnd i o (GoString.lit " gemini") = 0 ∧
    CalculateCost rnd i o (GoString.lit "gpt-4 ") = 0 ∧
    CalculateCost rnd i o (GoString.lit "") = 0 := by
  have key : ∀ (a b : Int) (p : GoString), p ≠ GoString.lit "claude-opus" →
      p ≠ GoString.lit "claude-sonnet" → p ≠ GoString.lit "gemini" →
      p ≠ GoString.lit "gpt-4" → CalculateCost rnd a b p = 0 := by
    intro a b p k1 k2 k3 k4
    simp only [CalculateCost, if_neg k1, if_neg k2, if_neg k3, if_neg k4]
  exact ⟨key i o provider h1 h2 h3 h4,
    key _ _ _ (by decide) (by decide) (by decide) (by decide),
    key _ _ _ (by decide) (by decide) (by decide) (by decide),
    key _ _ _ (by decide) (by decide) (by decide) (by decide),
    key _ _ _ (by decide) (by decide) (by decide) (by decide),
    key _ _ _ (by decide) (by decide) (by decide) (by decide)⟩

/-- Witness for C4: the provider "GPT-4" in `float64` arithmetic. -/
theorem CalculateCost_unknown_witness :
    CalculateCost roundFloat64 12 34 (GoString.lit "GPT-4") = 0 :=
  (CalculateCost_unknown roundFloat64 12 34 (GoString.lit "GPT-4")
    (by decide) (by decide) (by decide) (by decide)).1

/-- Claim C8: token counts are not validated and the formula applies to
negative values as it stands: for every recognised provider and all counts
`i ≤ 0`, `o ≤ 0`, not both zero, the cost is strictly negative, in `float64`
arithmetic and in exact arithmetic; the cost of -1,000,000 input tokens and no
output tokens with "claude-opus" is -15. -/
theorem CalculateCost_negative (i o : Int) (name : String) (inRate outRate : ℚ)
    (hp : (name, inRate, outRate) ∈ specRates)
    (hi : i ≤ 0) (ho : o ≤ 0) (hne : ¬ (i = 0 ∧ o = 0)) :
    CalculateCost roundFloat64 i o (GoString.lit name) < 0 ∧
    CalculateCost id i o (GoString.lit name) < 0 ∧
    CalculateCost roundFloat64 (-1000000) 0 (GoString.lit "claude-opus") = -15 ∧
    CalculateCost id (-1000000) 0 (GoString.lit "claude-opus") = -15 := by
  obtain ⟨hin, hout⟩ := specRates_ge_one name inRate outRate hp
  refine ⟨?_, ?_, ?_, ?_⟩
  · rw [CalculateCost_eq_formula roundFloat64 i o name inRate outRate hp]
    exact costSum_neg roundFloat64 roundFloat64_nonpos roundFloat64_le_neg
      i o inRate outRate hin hout hi ho hne
  · rw [CalculateCost_eq_formula id i o name inRate outRate hp]
    exact costSum_neg id (fun _ h => h) (fun _ _ h => h) i o inRate outRate hin hout hi ho hne
  · have e0 : roundFloat64 0 = 0 := roundFloat64_zero
    have e1 : roundFloat64 (-1000000) = -1000000 :=
      roundFloat64_small_int (-1000000) (by norm_num) _ (by norm_num)
    have e2 : roundFloat64 (-15000000) = -15000000 :=
      roundFloat64_small_int (-15000000) (by norm_num) _ (by norm_num)
    have e3 : roundFloat64 (-15) = -15 :=
      roundFloat64_small_int (-15) (by norm_num) _ (by norm_num)
    simp only [CalculateCost, if_true]
    norm_num [e0, e1, e2, e3]
  · simp only [CalculateCost, if_true, id]
    norm_num

/-- Witness for C8: -3 input tokens and -1 output tokens with "gemini". -/
theorem CalculateCost_negative_witness :
    CalculateCost roundFloat64 (-3) (-1) (GoString.lit "gemini") < 0 :=
  (CalculateCost_negative (-3) (-1) "gemini" (5 / 4) 5 (by simp [specRates])
    (by decide) (by decide) (by decide)).1

end MCP
